import Mathlib

/-!
Verification of the two utility scripts in the WarmachineTTS repository.

Pipeline A ("Square/Thumbnail Normalizer") is the centre-crop / thumbnail
batch tool; Pipeline B ("Fuzzy Image Matcher") is the spreadsheet-to-image
fuzzy matching and copying tool.

The shallow embedding below translates the Python source faithfully:

* text is modelled as `List Char` / `String`; Python's `str.lower`, `\s`,
  `\d` are modelled at the ASCII level (`Char.toLower`, the six ASCII
  whitespace characters, `'0'..'9'`), which is exact on the ASCII inputs
  the scripts are designed for;
* the regular-expression substitutions of `normalise` and `safe_filename`
  are unfolded into explicit list transformations, including the Python
  semantics of the `$` anchor (which also matches just before one trailing
  newline);
* the filesystem is a map from path strings to optional byte lists, and
  images are dimension/pixel records; calls into PIL and `thefuzz` (code
  that lives outside this repository) appear as explicitly documented
  parameters.
-/

namespace Warmachine

/-! ### Character classes (ASCII model of Python `str.lower`, `\s`, `\d`) -/

/-- ASCII whitespace, the characters matched by Python's regex `\s`
(and stripped by `str.strip`). -/
def isSpaceC (c : Char) : Bool :=
  c = ' ' || c = '\t' || c = '\n' || c = '\x0b' || c = '\x0c' || c = '\r'

/-- ASCII decimal digits, Python's regex `\d`. -/
def isDigitC (c : Char) : Bool := '0' ≤ c && c ≤ '9'

/-- The regex class `[a-z]`. -/
def isLowerAlpha (c : Char) : Bool := 'a' ≤ c && c ≤ 'z'

/-- The regex class `[\s_\-]` used before a trailing digit run in `normalise`. -/
def isSepC (c : Char) : Bool := isSpaceC c || c = '_' || c = '-'

/-- The regex class `[_\-]` collapsed to single spaces by `normalise`. -/
def isUndC (c : Char) : Bool := c = '_' || c = '-'

/-! ### Generic pieces of the regex substitutions -/

/-- Drop a run of characters satisfying `p` from the end of a list
(`str.rstrip`-like helper). -/
def dropTrail (p : Char → Bool) (l : List Char) : List Char :=
  (l.reverse.dropWhile p).reverse

/-- Python `str.strip()`: remove leading and trailing whitespace. -/
def pyStrip (l : List Char) : List Char :=
  dropTrail isSpaceC (l.dropWhile isSpaceC)

/-- Worker for `collapseRuns`; the flag records whether the previous
character belonged to a run already replaced by `rep`. -/
def collapseRunsAux (p : Char → Bool) (rep : Char) : Bool → List Char → List Char
  | _, [] => []
  | inRun, c :: cs =>
    if p c then
      if inRun then collapseRunsAux p rep true cs
      else rep :: collapseRunsAux p rep true cs
    else c :: collapseRunsAux p rep false cs

/-- Global substitution of every maximal nonempty run of characters
satisfying `p` by the single character `rep`: the effect of
`re.sub(r'X+', rep, s)` for a character class `X`. -/
def collapseRuns (p : Char → Bool) (rep : Char) (l : List Char) : List Char :=
  collapseRunsAux p rep false l

/-- Helper for end-anchored substitutions, working on the reversed list:
the effect of `re.sub(r'\.[a-z]{2,4}$', '', s)`.  A match exists exactly
when the characters after the last `'.'` are 2 to 4 lowercase letters
running to the end of the string. -/
def extStripRev (r : List Char) : List Char :=
  let letters := r.takeWhile isLowerAlpha
  match r.dropWhile isLowerAlpha with
  | '.' :: rest =>
    if 2 ≤ letters.length ∧ letters.length ≤ 4 then rest else r
  | _ => r

/-- Helper for `re.sub(r'[\s_\-]*\d+$', '', s)`, working on the reversed
list: the leftmost match removes the maximal trailing digit run together
with the maximal separator run just before it (no match when the string
does not end in a digit). -/
def digitStripRev (r : List Char) : List Char :=
  match r.takeWhile isDigitC with
  | [] => r
  | _ :: _ => (r.dropWhile isDigitC).dropWhile isSepC

/-- The substitution `re.sub(r'\.[a-z]{2,4}$', '', s)` restricted to
true end-of-string matches. -/
def extStrip (l : List Char) : List Char := (extStripRev l.reverse).reverse

/-- The substitution `re.sub(r'[\s_\-]*\d+$', '', s)` restricted to
true end-of-string matches. -/
def digitStrip (l : List Char) : List Char := (digitStripRev l.reverse).reverse

/-- Python's `$` anchor also matches just before a single newline at the
very end of the string, so an end-anchored substitution acts on the part
before such a trailing newline. -/
def subEnd (f : List Char → List Char) (l : List Char) : List Char :=
  if l.getLast? = some '\n' then f l.dropLast ++ ['\n'] else f l

/-! ### Pipeline B: `normalise`, `score`, `safe_filename` (Image.py 56-96) -/

/-- The body of `normalise` from the matcher script, on character lists:
lowercase, drop a trailing extension-like suffix, drop a trailing
digit run (with preceding separators), collapse `[_\-]+` runs to single
spaces, collapse whitespace runs to single spaces, and strip. -/
def normaliseL (l : List Char) : List Char :=
  pyStrip (collapseRuns isSpaceC ' '
    (collapseRuns isUndC ' '
      (subEnd digitStrip (subEnd extStrip (l.map Char.toLower)))))

/-- `normalise` from the matcher script. -/
def normalise (s : String) : String := String.mk (normaliseL s.data)

/-- String-level view of the extension-strip pass of `normalise`. -/
def extStripS (s : String) : String := String.mk (subEnd extStrip s.data)

/-- String-level view of the trailing-digit-strip pass of `normalise`. -/
def digitStripS (s : String) : String := String.mk (subEnd digitStrip s.data)

/-- Python `str.lower()` (ASCII model). -/
def strLower (s : String) : String := String.mk (s.data.map Char.toLower)

/-- Modelled from the spec: the four `thefuzz` similarity metrics used by
`score` (`fuzz.ratio`, `fuzz.partial_ratio`, `fuzz.token_sort_ratio`,
`fuzz.token_set_ratio`).  The library is not part of this repository; the
spec only states that each metric ranges over 0-100, which appears as an
explicit hypothesis where it is needed. -/
structure Fuzz where
  ratio : String → String → Nat
  partRatio : String → String → Nat
  tokenSortRatio : String → String → Nat
  tokenSetRatio : String → String → Nat

/-- The list of five similarity scores computed inside `score`
(Image.py 80-87). -/
def scoreList (fz : Fuzz) (excel_norm file_norm excel_raw file_raw : String) :
    List Nat :=
  [fz.ratio excel_norm file_norm,
   fz.partRatio excel_norm file_norm,
   fz.tokenSortRatio excel_norm file_norm,
   fz.tokenSetRatio excel_norm file_norm,
   fz.ratio (strLower excel_raw) (strLower file_raw)]

/-- `score` from the matcher script: `max(scores)` over the five metrics. -/
def score (fz : Fuzz) (excel_norm file_norm excel_raw file_raw : String) : Nat :=
  (scoreList fz excel_norm file_norm excel_raw file_raw).foldr max 0

/-- The regex class of filename-illegal characters removed by
`safe_filename`. -/
def isIllegalC (c : Char) : Bool :=
  c = '\\' || c = '/' || c = '*' || c = '?' || c = ':' ||
  c = '"' || c = '<' || c = '>' || c = '|'

/-- `safe_filename` from the matcher script: drop illegal characters,
collapse whitespace runs, strip. -/
def safe_filename (s : String) : String :=
  String.mk (pyStrip (collapseRuns isSpaceC ' '
    (s.data.filter (fun c => !isIllegalC c))))

/-! ### Stable descending sort (Python `list.sort(key=..., reverse=True)`)

Python's sort is stable; with `reverse=True` it orders by strictly
descending key and keeps elements with equal keys in their original
order.  That output is exactly the unique permutation sorted by the
linear order "higher score first, original index breaks ties", so we sort
the index-tagged list by that order. -/

/-- The order used by the candidate sort of the matcher: higher score
first, ties broken by the original enumeration index. -/
def descStable {α : Type} (sc : α → Nat) (a b : Nat × α) : Prop :=
  sc b.2 < sc a.2 ∨ (sc a.2 = sc b.2 ∧ a.1 ≤ b.1)

instance descStable.decRel {α : Type} (sc : α → Nat) : DecidableRel (descStable sc) :=
  fun a b =>
    inferInstanceAs (Decidable (sc b.2 < sc a.2 ∨ (sc a.2 = sc b.2 ∧ a.1 ≤ b.1)))

/-- `candidates.sort(key=lambda x: x[2], reverse=True)` (Image.py 155):
stable sort by descending score. -/
def pySortDesc {α : Type} (sc : α → Nat) (l : List α) : List α :=
  (List.insertionSort (descStable sc) l.enum).map Prod.snd

/-! ### Pipeline B data model (Image.py `main`) -/

/-- The five-way decision enum of the matcher. -/
inductive Action where
  | COPIED
  | DRY_RUN_COPY
  | SKIPPED_EXISTS
  | ALREADY_CORRECT
  | NO_MATCH
deriving DecidableEq

/-- A candidate image file found in `IMAGE_DIR` (Image.py 126-129):
its full path, its stem (name without the final suffix) and its name. -/
structure ImgFile where
  path : String
  stem : String
  name : String
deriving DecidableEq

/-- File contents. -/
abbrev Bytes := List Nat

/-- The filesystem as seen by the matcher: a map from path strings to
optional contents (`none` = the path does not exist). -/
abbrev FS := String → Option Bytes

/-- The configuration constants of the matcher (Image.py 45-50) together
with the two external dependencies: the `thefuzz` metrics and the
`Path.resolve` function of the host filesystem (symlink resolution is
outside the repository, so it is a parameter; within one run no symlinks
are created, so it is a fixed map). -/
structure ConfigB where
  fz : Fuzz
  resolve : String → String
  outputDir : String
  minScore : Nat
  dryRun : Bool

/-- The per-item report/progress messages, one constructor per f-string
in the decision branches (Image.py 160-180), carrying the interpolated
data. -/
inductive MsgB where
  | noMatch (bestName : String) (sc threshold : Nat)
  | alreadyCorrect
  | skippedExists (targetName bestName : String) (sc : Nat)
  | copied (bestName targetName : String) (sc : Nat)
deriving DecidableEq

/-- One row of the CSV report (Image.py 192-200). -/
structure ReportRow where
  modelName : String
  action : Action
  sourceFile : String
  targetFile : String
  scoreVal : Nat
  top3 : List (String × Nat)
  message : MsgB
deriving DecidableEq

/-- The console output of one matcher run, one constructor per `print`
that depends on the data of the run (decorative separator lines are
omitted, and the pre-loop counts are identical in every mode). -/
inductive LogB where
  | item (a : Action) (modelName : String) (msg : MsgB)
  | dryBanner
  | counts (copied alreadyExists skipped noMatch total : Nat)
  | reportSaved
  | tip (noMatch minScore : Nat)
deriving DecidableEq

/-- The target path `output_dir / f"{target_stem}.png"` (Image.py 146-147). -/
def targetPathB (cfg : ConfigB) (modelName : String) : String :=
  cfg.outputDir ++ "/" ++ safe_filename modelName ++ ".png"

/-- `image_index`: every image paired with its normalised stem
(Image.py 137-139). -/
def imageIndex (images : List ImgFile) : List (ImgFile × String) :=
  images.map (fun f => (f, normalise f.stem))

/-- The scored candidate list for one model name (Image.py 151-154). -/
def candsB (cfg : ConfigB) (index : List (ImgFile × String)) (modelName : String) :
    List (ImgFile × String × Nat) :=
  index.map (fun x => (x.1, x.2, score cfg.fz (normalise modelName) x.2 modelName x.1.stem))

/-- The candidate list sorted by descending score, stably (Image.py 155). -/
def sortedB (cfg : ConfigB) (index : List (ImgFile × String)) (modelName : String) :
    List (ImgFile × String × Nat) :=
  pySortDesc (fun c => c.2.2) (candsB cfg index modelName)

/-- Placeholder candidate.  The source reads `candidates[0]`, which is
only reached when `image_files` is nonempty (`main` returns early on an
empty image directory, Image.py 132-134), so this default is never
produced under that guard. -/
def dummyCand : ImgFile × String × Nat := (⟨"", "", ""⟩, "", 0)

/-- `best_path, best_norm, best_score = candidates[0]` (Image.py 157). -/
def bestB (cfg : ConfigB) (index : List (ImgFile × String)) (modelName : String) :
    ImgFile × String × Nat :=
  (sortedB cfg index modelName).headD dummyCand

/-- Result of processing one model name: the report row, the updated
filesystem, the copy events performed and the progress line printed. -/
structure StepOut where
  row : ReportRow
  fs : FS
  copies : List (String × String)
  log : LogB

/-- Processing of one model name (Image.py 145-200): score and sort the
candidates, decide the action, optionally copy, and build the report row. -/
def stepB (cfg : ConfigB) (index : List (ImgFile × String)) (fs : FS)
    (modelName : String) : StepOut :=
  let tPath := targetPathB cfg modelName
  let best := bestB cfg index modelName
  let bs := best.2.2
  let mk := fun (a : Action) (m : MsgB) =>
    ({ modelName := modelName
       action := a
       sourceFile := if cfg.minScore ≤ bs then best.1.name else ""
       targetFile := safe_filename modelName ++ ".png"
       scoreVal := bs
       top3 := ((sortedB cfg index modelName).take 3).map (fun c => (c.1.name, c.2.2))
       message := m } : ReportRow)
  if bs < cfg.minScore then
    let msg := MsgB.noMatch best.1.name bs cfg.minScore
    ⟨mk Action.NO_MATCH msg, fs, [], LogB.item Action.NO_MATCH modelName msg⟩
  else if (fs tPath).isSome && (cfg.resolve tPath == cfg.resolve best.1.path) then
    ⟨mk Action.ALREADY_CORRECT MsgB.alreadyCorrect, fs, [],
     LogB.item Action.ALREADY_CORRECT modelName MsgB.alreadyCorrect⟩
  else if (fs tPath).isSome then
    let msg := MsgB.skippedExists (safe_filename modelName ++ ".png") best.1.name bs
    ⟨mk Action.SKIPPED_EXISTS msg, fs, [], LogB.item Action.SKIPPED_EXISTS modelName msg⟩
  else
    let a := if cfg.dryRun then Action.DRY_RUN_COPY else Action.COPIED
    let msg := MsgB.copied best.1.name (safe_filename modelName ++ ".png") bs
    let fs' := if cfg.dryRun then fs
               else fun p => if p = tPath then fs best.1.path else fs p
    let cps := if cfg.dryRun then [] else [(best.1.path, tPath)]
    ⟨mk a msg, fs', cps, LogB.item a modelName msg⟩

/-- Accumulated state of the matching loop. -/
structure BState where
  rows : List ReportRow
  fs : FS
  copies : List (String × String)
  logs : List LogB
  copied : Nat
  alreadyExists : Nat
  skipped : Nat
  noMatch : Nat

/-- One iteration of the matching loop: run `stepB` and accumulate
rows, filesystem effects, logs and the four counters (the `copied`
counter counts both real and dry-run copies, as in the source). -/
def applyB (cfg : ConfigB) (index : List (ImgFile × String)) (st : BState)
    (modelName : String) : BState :=
  let so := stepB cfg index st.fs modelName
  { rows := st.rows ++ [so.row]
    fs := so.fs
    copies := st.copies ++ so.copies
    logs := st.logs ++ [so.log]
    copied := st.copied +
      (if so.row.action = Action.COPIED ∨ so.row.action = Action.DRY_RUN_COPY then 1 else 0)
    alreadyExists := st.alreadyExists +
      (if so.row.action = Action.ALREADY_CORRECT then 1 else 0)
    skipped := st.skipped + (if so.row.action = Action.SKIPPED_EXISTS then 1 else 0)
    noMatch := st.noMatch + (if so.row.action = Action.NO_MATCH then 1 else 0) }

/-- The matcher loop over all model names. -/
def foldB (cfg : ConfigB) (index : List (ImgFile × String)) :
    BState → List String → BState
  | st, [] => st
  | st, n :: ns => foldB cfg index (applyB cfg index st n) ns

/-- The observable outcome of a matcher run. -/
structure RunBOut where
  rows : List ReportRow
  fs : FS
  copies : List (String × String)
  logs : List LogB
  mkdirDone : Bool
  reportWritten : Bool

/-- The matcher `main` after its input validation (Image.py 102-225):
`output_dir.mkdir` always runs; an empty image list causes an early
return before any matching; otherwise every model name is processed and
the CSV report is written (in every mode, dry-run included). -/
def runB (cfg : ConfigB) (images : List ImgFile) (modelNames : List String)
    (fs0 : FS) : RunBOut :=
  if images.isEmpty then
    ⟨[], fs0, [], [], true, false⟩
  else
    let st := foldB cfg (imageIndex images) ⟨[], fs0, [], [], 0, 0, 0, 0⟩ modelNames
    ⟨st.rows, st.fs, st.copies,
     st.logs
       ++ (if cfg.dryRun then [LogB.dryBanner] else [])
       ++ [LogB.counts st.copied st.alreadyExists st.skipped st.noMatch modelNames.length]
       ++ [LogB.reportSaved]
       ++ (if 0 < st.noMatch then [LogB.tip st.noMatch cfg.minScore] else []),
     true, true⟩

/-! ### Pipeline A data model (Trim.py) -/

/-- An image: dimensions and a pixel map. -/
structure Img (α : Type) where
  w : Nat
  h : Nat
  pix : Nat → Nat → α

/-- `centre_crop_square` (Trim.py 43-50).  PIL's
`img.crop((left, top, left + side, top + side))` produces a `side x side`
image whose pixel `(x, y)` is the input pixel `(left + x, top + y)`. -/
def centre_crop_square {α : Type} (img : Img α) : Img α :=
  if img.w = img.h then img
  else
    { w := min img.w img.h
      h := min img.w img.h
      pix := fun x y =>
        img.pix ((img.w - min img.w img.h) / 2 + x)
                ((img.h - min img.w img.h) / 2 + y) }

/-- `maybe_resize_square` (Trim.py 53-60).  `lanczos i a b` stands for
`i.resize((a, b), resample=Image.Resampling.LANCZOS)`, a PIL call from
outside the repository, kept as a parameter.  Python's `if not max_size`
treats both `None` and `0` as "no max configured". -/
def maybe_resize_square {α : Type} (lanczos : Img α → Nat → Nat → Img α)
    (img : Img α) (maxSize : Option Nat) : Img α :=
  match maxSize with
  | none => img
  | some m =>
    if m = 0 then img
    else if img.w ≤ m ∧ img.h ≤ m then img
    else lanczos img m m

/-- Whether `maybe_resize_square` takes its resize branch. -/
def resizeTriggered {α : Type} (img : Img α) (maxSize : Option Nat) : Bool :=
  match maxSize with
  | none => false
  | some m =>
    if m = 0 then false
    else if img.w ≤ m ∧ img.h ≤ m then false
    else true

/-- `centre_crop_square` at the dimension level, for the batch model. -/
def cropDims (w h : Nat) : Nat × Nat :=
  if w = h then (w, h) else (min w h, min w h)

/-- `maybe_resize_square` at the dimension level. -/
def resizeDims (maxSize : Option Nat) (wh : Nat × Nat) : Nat × Nat :=
  match maxSize with
  | none => wh
  | some m =>
    if m = 0 then wh
    else if wh.1 ≤ m ∧ wh.2 ≤ m then wh
    else (m, m)

/-- PIL `Image.thumbnail((t, t))` on an `s x s` square source: bounded,
aspect-preserving, shrink-only, hence a `min s t` square (library call,
modelled at the dimension level). -/
def thumbSide (s t : Nat) : Nat := min s t

/-- The command-line arguments of Trim.py (the `--thumb-format` option is
modelled at its default `same`, under which `with_suffix` keeps the
mirrored path unchanged).  `folderOk` is the result of the
`in_dir.exists() and in_dir.is_dir()` check. -/
structure ArgsA where
  folder : String
  folderOk : Bool
  out : Option String
  inplace : Bool
  noRecursive : Bool
  maxSize : Option Nat
  thumbSize : Nat
  dryRun : Bool
deriving DecidableEq

/-- The square-output root (Trim.py 117-120). -/
def squareRootA (a : ArgsA) : String :=
  if a.inplace then a.folder
  else
    match a.out with
    | some o => o
    | none => a.folder ++ " (square)"

/-- The thumbnails root (Trim.py 123). -/
def thumbsRootA (a : ArgsA) : String := squareRootA a ++ "/THUMBS"

/-- One enumerated input image: its path relative to the input folder,
its post-EXIF-transpose dimensions, and whether opening/processing it
raises (the per-file exception path). -/
structure FileA where
  rel : String
  w : Nat
  h : Nat
  fails : Bool
deriving DecidableEq

/-- The per-file decision of a Trim.py run. -/
inductive DecA where
  | failed (rel : String)
  | proc (rel : String) (needSquareWrite : Bool)
deriving DecidableEq

/-- A filesystem write performed by Trim.py. -/
inductive WriteA where
  | square (path : String) (wh : Nat × Nat)
  | thumb (path : String) (wh : Nat × Nat)
deriving DecidableEq

/-- The console output of Trim.py, one constructor per data-dependent
`print`. -/
inductive LogA where
  | errFolder (folder : String)
  | errInplaceAndOut
  | dryLine (rel : String) (needSquareWrite : Bool) (w h sqW sqH tw th : Nat)
  | failedLine (rel : String)
  | doneLine (changed skipped failed : Nat)
  | rootsLine (squareRoot thumbsRoot : String)
deriving DecidableEq

/-- Accumulated state of the Trim.py loop. -/
structure AState where
  logs : List LogA
  writes : List WriteA
  decisions : List DecA
  changed : Nat
  skipped : Nat
  failed : Nat
deriving DecidableEq

/-- `need_square_write` (Trim.py 146): not square originally, or a
configured max size forced a downscale. -/
def needSquareWriteA (a : ArgsA) (w h : Nat) : Bool :=
  w != h || (a.maxSize.isSome && (resizeDims a.maxSize (cropDims w h)).1 != w)

/-- The square output path (Trim.py 149). -/
def squarePathA (a : ArgsA) (rel : String) : String :=
  if a.inplace then a.folder ++ "/" ++ rel else squareRootA a ++ "/" ++ rel

/-- The thumbnail output path (Trim.py 157). -/
def thumbPathA (a : ArgsA) (rel : String) : String := thumbsRootA a ++ "/" ++ rel

/-- One iteration of the Trim.py loop (Trim.py 129-185): a failing file
is caught, logged and counted in every mode; a dry run prints the action
line and unconditionally counts the file as `changed`; a real run writes
the square output when needed and always writes the thumbnail. -/
def stepA (a : ArgsA) (st : AState) (f : FileA) : AState :=
  if f.fails then
    { st with logs := st.logs ++ [LogA.failedLine f.rel]
              decisions := st.decisions ++ [DecA.failed f.rel]
              failed := st.failed + 1 }
  else
    let sq := resizeDims a.maxSize (cropDims f.w f.h)
    let nw := needSquareWriteA a f.w f.h
    let t := thumbSide sq.1 a.thumbSize
    if a.dryRun then
      { st with logs := st.logs ++ [LogA.dryLine f.rel nw f.w f.h sq.1 sq.2 t t]
                decisions := st.decisions ++ [DecA.proc f.rel nw]
                changed := st.changed + 1 }
    else
      { st with
          writes := st.writes
            ++ (if nw then [WriteA.square (squarePathA a f.rel) sq] else [])
            ++ [WriteA.thumb (thumbPathA a f.rel) (t, t)]
          decisions := st.decisions ++ [DecA.proc f.rel nw]
          changed := st.changed + (if nw then 1 else 0)
          skipped := st.skipped + (if nw then 0 else 1) }

/-- The observable outcome of a Trim.py run. -/
structure RunAOut where
  exitCode : Nat
  logs : List LogA
  writes : List WriteA
  decisions : List DecA
  changed : Nat
  skipped : Nat
  failed : Nat
deriving DecidableEq

/-- Trim.py `main` (Trim.py 92-191): validation returning exit code 2,
then the per-file loop, the summary line, the root lines (real runs
only), and exit code 0 on full success or 1 if any file failed. -/
def runA (a : ArgsA) (files : List FileA) : RunAOut :=
  if !a.folderOk then ⟨2, [LogA.errFolder a.folder], [], [], 0, 0, 0⟩
  else if a.inplace && a.out.isSome then ⟨2, [LogA.errInplaceAndOut], [], [], 0, 0, 0⟩
  else
    let st := files.foldl (stepA a) ⟨[], [], [], 0, 0, 0⟩
    ⟨if st.failed = 0 then 0 else 1,
     st.logs ++ [LogA.doneLine st.changed st.skipped st.failed]
       ++ (if a.dryRun then [] else [LogA.rootsLine (squareRootA a) (thumbsRootA a)]),
     st.writes, st.decisions, st.changed, st.skipped, st.failed⟩

/-! ### Auxiliary predicates (used to characterise `normalise` output) -/

/-- Whether a character list starts with a whitespace character. -/
def headIsSpace : List Char → Bool
  | [] => false
  | c :: _ => isSpaceC c

/-- Isolated-space invariant: every whitespace character in the list is a
plain `' '` and is not followed by another whitespace character. -/
def spIso : List Char → Bool
  | [] => true
  | c :: cs => (!isSpaceC c || (c = ' ' && !headIsSpace cs)) && spIso cs

/-- Identifies a dry-run copy with the real copy it previews. -/
def relabelAction : Action → Action
  | Action.DRY_RUN_COPY => Action.COPIED
  | a => a

/-- A report row with its action relabelled by `relabelAction`. -/
def relabelRow (r : ReportRow) : ReportRow :=
  { r with action := relabelAction r.action }

/-! ### Concrete fixtures used by witnesses and counterexamples -/

/-- A metrics instance in which every metric returns 0. -/
def trivFuzz : Fuzz := ⟨fun _ _ => 0, fun _ _ => 0, fun _ _ => 0, fun _ _ => 0⟩

/-- A metrics instance in which every metric returns 100. -/
def fullFuzz : Fuzz := ⟨fun _ _ => 100, fun _ _ => 100, fun _ _ => 100, fun _ _ => 100⟩

/-- A candidate image whose actual format is JPEG. -/
def imgJpgW : ImgFile := ⟨"ModelArtOld/knight_01.jpg", "knight_01", "knight_01.jpg"⟩

/-- A filesystem holding just the JPEG candidate. -/
def fsJpgW : FS := fun p => if p = "ModelArtOld/knight_01.jpg" then some [1, 2, 3] else none

/-- A matcher configuration (real run) whose metrics always match. -/
def cfgW : ConfigB := ⟨fullFuzz, id, "ModelArt", 60, false⟩

/-- A matcher configuration (dry run) whose metrics never match. -/
def cfgDryW : ConfigB := ⟨trivFuzz, id, "ModelArt", 60, true⟩

/-- A single non-failing, already-square input file for Trim.py. -/
def fileSqW : FileA := ⟨"a.png", 10, 10, false⟩

/-- Valid Trim.py arguments, real run. -/
def argsRealW : ArgsA := ⟨"Top Images", true, none, false, false, none, 256, false⟩

/-- Valid Trim.py arguments, dry run. -/
def argsDryW : ArgsA := ⟨"Top Images", true, none, false, false, none, 256, true⟩

/-- Trim.py arguments combining `--inplace` with `--out` (invalid). -/
def argsBadW : ArgsA := ⟨"Top Images", true, some "Out", true, false, none, 256, false⟩

/-- Trim.py arguments pointing at a missing folder. -/
def argsNoFolderW : ArgsA := ⟨"Missing", false, none, false, false, none, 256, false⟩

/-- A file whose processing raises a per-file exception. -/
def fileFailW : FileA := ⟨"b.png", 5, 5, true⟩

/-- A 100 x 60 coordinate image, the example input of the crop claim. -/
def imgC4 : Img (Nat × Nat) := ⟨100, 60, fun x y => (x, y)⟩

/-- A 100 x 60 constant image for the downscale witness. -/
def imgC3 : Img Nat := ⟨100, 60, fun _ _ => 0⟩

/-- A resize stand-in satisfying the PIL dimension contract. -/
def lanczosW : Img Nat → Nat → Nat → Img Nat := fun i a b => ⟨a, b, i.pix⟩

/-- The per-file decision record Trim.py produces for a file, which does
not depend on the dry-run flag. -/
def decOfA (a : ArgsA) (f : FileA) : DecA :=
  if f.fails then DecA.failed f.rel
  else DecA.proc f.rel (needSquareWriteA a f.w f.h)

/-! ## Theorems -/

/-! ### Pipeline A: centre crop (C4) and optional downscale (C3) -/

/-- The output of `centre_crop_square` is always square. -/
theorem centre_crop_square_isSquare {α : Type} (img : Img α) :
    (centre_crop_square img).w = (centre_crop_square img).h := by
  unfold centre_crop_square
  split
  · assumption
  · rfl

/-- C4: for every image, the centre-crop is the identity when `w = h`;
otherwise it produces a `min w h` square whose pixel `(x, y)` originates
at offset `((w - side) / 2, (h - side) / 2)` in the input (integer
truncation, favouring top/left). -/
theorem C4_centre_crop (α : Type) (img : Img α) :
    (img.w = img.h → centre_crop_square img = img) ∧
    (img.w ≠ img.h →
      (centre_crop_square img).w = min img.w img.h ∧
      (centre_crop_square img).h = min img.w img.h ∧
      ∀ x y, (centre_crop_square img).pix x y =
        img.pix ((img.w - min img.w img.h) / 2 + x)
                ((img.h - min img.w img.h) / 2 + y)) := by
  constructor
  · intro h; unfold centre_crop_square; rw [if_pos h]
  · intro h; unfold centre_crop_square; rw [if_neg h]
    exact ⟨rfl, rfl, fun x y => rfl⟩

/-- Witness for C4 at the 100 x 60 example: the crop is 60 x 60 and reads
the input at horizontal offset 20 and vertical offset 0. -/
theorem C4_centre_crop_witness :
    (centre_crop_square imgC4).w = 60 ∧
    (centre_crop_square imgC4).h = 60 ∧
    (centre_crop_square imgC4).pix 0 0 = (20, 0) ∧
    (centre_crop_square imgC4).pix 5 7 = (25, 7) := by
  have h := (C4_centre_crop (Nat × Nat) imgC4).2 (by decide)
  refine ⟨h.1, h.2.1, ?_, ?_⟩
  · rw [h.2.2 0 0]; rfl
  · rw [h.2.2 5 7]; rfl

/-- C3: on the already-cropped (hence square) image, the optional
downscale triggers only when both dimensions exceed the configured max,
in which case the result is exactly `max x max`; with no max configured,
or when the trigger condition fails, the image is returned unchanged.
`hl` is the PIL contract that `resize((a, b))` produces an `a x b` image. -/
theorem C3_maybe_resize (α : Type) (lanczos : Img α → Nat → Nat → Img α)
    (hl : ∀ i a b, (lanczos i a b).w = a ∧ (lanczos i a b).h = b)
    (img : Img α) (m : Nat) :
    maybe_resize_square lanczos (centre_crop_square img) none = centre_crop_square img ∧
    (resizeTriggered (centre_crop_square img) (some m) = true →
      m < (centre_crop_square img).w ∧ m < (centre_crop_square img).h ∧
      maybe_resize_square lanczos (centre_crop_square img) (some m) =
        lanczos (centre_crop_square img) m m ∧
      (maybe_resize_square lanczos (centre_crop_square img) (some m)).w = m ∧
      (maybe_resize_square lanczos (centre_crop_square img) (some m)).h = m) ∧
    (¬(m < (centre_crop_square img).w ∧ m < (centre_crop_square img).h) →
      maybe_resize_square lanczos (centre_crop_square img) (some m) =
        centre_crop_square img) := by
  have hsq := centre_crop_square_isSquare img
  refine ⟨rfl, ?_, ?_⟩
  · intro ht
    simp only [resizeTriggered] at ht
    split_ifs at ht with h0 hle
    have hlt : m < (centre_crop_square img).w ∧ m < (centre_crop_square img).h := by
      constructor <;> omega
    have he : maybe_resize_square lanczos (centre_crop_square img) (some m) =
        lanczos (centre_crop_square img) m m := by
      simp only [maybe_resize_square]
      rw [if_neg h0, if_neg hle]
    refine ⟨hlt.1, hlt.2, he, ?_, ?_⟩
    · rw [he]; exact (hl (centre_crop_square img) m m).1
    · rw [he]; exact (hl (centre_crop_square img) m m).2
  · intro hnot
    simp only [maybe_resize_square]
    split_ifs with h0 hle
    · rfl
    · rfl
    · exfalso; omega

/-- Witness for C3: cropping the 100 x 60 image gives a 60 x 60 square;
with max 50 the downscale triggers and yields 50 x 50, and with no max
the image passes through unchanged. -/
theorem C3_maybe_resize_witness :
    (maybe_resize_square lanczosW (centre_crop_square imgC3) (some 50)).w = 50 ∧
    (maybe_resize_square lanczosW (centre_crop_square imgC3) (some 50)).h = 50 ∧
    maybe_resize_square lanczosW (centre_crop_square imgC3) none =
      centre_crop_square imgC3 := by
  have h := C3_maybe_resize Nat lanczosW (fun i a b => ⟨rfl, rfl⟩) imgC3 50
  have h2 := h.2.1 (by decide)
  exact ⟨h2.2.2.2.1, h2.2.2.2.2, h.1⟩

/-! ### Pipeline B: composite score (C7) -/

/-- C7: the composite similarity score equals the maximum of the five
metrics (the four normalised-string metrics and the ratio of the
lowercased raw strings): it is one of them and dominates each of them;
and, under the spec-modelled 0-100 range of each library metric, the
composite also lies in 0-100 (the lower bound holds trivially in `Nat`). -/
theorem C7_score (fz : Fuzz) (a b c d : String)
    (hb : ∀ x ∈ scoreList fz a b c d, x ≤ 100) :
    score fz a b c d ∈ scoreList fz a b c d ∧
    (∀ x ∈ scoreList fz a b c d, x ≤ score fz a b c d) ∧
    score fz a b c d ≤ 100 := by
  have hs : score fz a b c d =
      max (fz.ratio a b) (max (fz.partRatio a b) (max (fz.tokenSortRatio a b)
        (max (fz.tokenSetRatio a b) (max (fz.ratio (strLower c) (strLower d)) 0)))) := rfl
  refine ⟨?_, ?_, ?_⟩
  · rw [hs]
    simp only [scoreList, List.mem_cons, List.not_mem_nil, or_false]
    omega
  · intro x hx
    rw [hs]
    simp only [scoreList, List.mem_cons, List.not_mem_nil, or_false] at hx
    omega
  · have h1 := hb (fz.ratio a b) (by simp [scoreList])
    have h2 := hb (fz.partRatio a b) (by simp [scoreList])
    have h3 := hb (fz.tokenSortRatio a b) (by simp [scoreList])
    have h4 := hb (fz.tokenSetRatio a b) (by simp [scoreList])
    have h5 := hb (fz.ratio (strLower c) (strLower d)) (by simp [scoreList])
    rw [hs]
    omega

/-- Witness for C7 at a concrete metrics instance and concrete strings. -/
theorem C7_score_witness :
    score trivFuzz "knight" "knight" "Knight_02.png" "knight_01.png" ∈
      scoreList trivFuzz "knight" "knight" "Knight_02.png" "knight_01.png" ∧
    score trivFuzz "knight" "knight" "Knight_02.png" "knight_01.png" ≤ 100 := by
  have h := C7_score trivFuzz "knight" "knight" "Knight_02.png" "knight_01.png"
    (by intro x hx; simp [scoreList, trivFuzz] at hx; omega)
  exact ⟨h.1, h.2.2⟩

/-! ### Pipeline A: exit codes and batch continuation (C8) -/

/-- The `failed` counter after one step: it increments exactly on a
failing file. -/
theorem stepA_failed_eq (a : ArgsA) (st : AState) (f : FileA) :
    (stepA a st f).failed = st.failed + (if f.fails then 1 else 0) := by
  unfold stepA
  split_ifs <;> simp

/-- Every file contributes exactly one decision record. -/
theorem stepA_decisions_len (a : ArgsA) (st : AState) (f : FileA) :
    (stepA a st f).decisions.length = st.decisions.length + 1 := by
  unfold stepA
  split_ifs <;> simp

/-- Over the whole loop, `failed` counts the failing files. -/
theorem foldA_failed (a : ArgsA) (files : List FileA) :
    ∀ st : AState,
      (files.foldl (stepA a) st).failed = st.failed + files.countP (·.fails) := by
  induction files with
  | nil => intro st; simp
  | cons f fs ih =>
    intro st
    simp only [List.foldl_cons, List.countP_cons, ih, stepA_failed_eq]
    by_cases hf : f.fails
    · simp [hf]
      omega
    · simp [hf]

/-- Over the whole loop, every file is processed (one decision each). -/
theorem foldA_decisions_len (a : ArgsA) (files : List FileA) :
    ∀ st : AState,
      (files.foldl (stepA a) st).decisions.length =
        st.decisions.length + files.length := by
  induction files with
  | nil => intro st; simp
  | cons f fs ih =>
    intro st
    simp only [List.foldl_cons, List.length_cons, ih, stepA_decisions_len]
    omega

/-- On valid arguments the exit code is decided by the failure count and
every file receives a decision. -/
theorem runA_exit_valid (a : ArgsA) (files : List FileA)
    (h1 : a.folderOk = true) (h2 : ¬(a.inplace && a.out.isSome) = true) :
    (runA a files).exitCode = (if files.countP (·.fails) = 0 then 0 else 1) ∧
    (runA a files).decisions.length = files.length := by
  unfold runA
  rw [if_neg (by simp [h1]), if_neg h2]
  constructor
  · show (if (files.foldl (stepA a) ⟨[], [], [], 0, 0, 0⟩).failed = 0 then 0 else 1) = _
    rw [foldA_failed]
    simp
  · show (files.foldl (stepA a) ⟨[], [], [], 0, 0, 0⟩).decisions.length = _
    rw [foldA_decisions_len]
    simp

/-- C8: Trim.py exits with 2 exactly on invalid arguments
(`--inplace` with `--out`) or a missing input folder; on valid arguments
it exits 0 exactly when no per-file failure occurred and 1 exactly when
some file failed, and the batch still processes every file (one decision
per enumerated file). -/
theorem C8_exit_codes (a : ArgsA) (files : List FileA) :
    ((runA a files).exitCode = 2 ↔
      (a.folderOk = false ∨ (a.inplace = true ∧ a.out.isSome = true))) ∧
    (a.folderOk = true → ¬(a.inplace = true ∧ a.out.isSome = true) →
      ((runA a files).exitCode = 0 ↔ ∀ f ∈ files, f.fails = false) ∧
      ((runA a files).exitCode = 1 ↔ ∃ f ∈ files, f.fails = true) ∧
      (runA a files).decisions.length = files.length) := by
  by_cases h1 : a.folderOk = true
  · by_cases h2 : (a.inplace && a.out.isSome) = true
    · have hr : runA a files = ⟨2, [LogA.errInplaceAndOut], [], [], 0, 0, 0⟩ := by
        unfold runA
        rw [if_neg (by simp [h1]), if_pos h2]
      simp only [Bool.and_eq_true] at h2
      rw [hr]
      exact ⟨by simp [h1, h2], fun _ hno => absurd ⟨h2.1, h2.2⟩ hno⟩
    · have hv := runA_exit_valid a files h1 h2
      refine ⟨?_, ?_⟩
      · rw [hv.1]
        constructor
        · intro hx
          split_ifs at hx
          simp at hx
        · intro hx
          rcases hx with hx | hx
          · rw [hx] at h1; cases h1
          · exact absurd (by simp [hx.1, hx.2] :
              (a.inplace && a.out.isSome) = true) h2
      · intro _ _
        refine ⟨?_, ?_, hv.2⟩
        · rw [hv.1]
          constructor
          · intro hx
            split_ifs at hx with hz
            intro f hf
            have := List.countP_eq_zero.mp hz f hf
            simpa using this
          · intro hall
            rw [if_pos (List.countP_eq_zero.mpr (fun f hf => by simp [hall f hf]))]
        · rw [hv.1]
          constructor
          · intro hx
            split_ifs at hx with hz
            have hpos : 0 < files.countP (·.fails) := Nat.pos_of_ne_zero hz
            obtain ⟨f, hf, hp⟩ := List.countP_pos_iff.mp hpos
            exact ⟨f, hf, by simpa using hp⟩
          · rintro ⟨f, hf, hp⟩
            have hpos : 0 < files.countP (·.fails) :=
              List.countP_pos_iff.mpr ⟨f, hf, by simpa using hp⟩
            rw [if_neg (by omega)]
  · have hf0 : a.folderOk = false := by revert h1; cases a.folderOk <;> simp
    have hr : runA a files = ⟨2, [LogA.errFolder a.folder], [], [], 0, 0, 0⟩ := by
      unfold runA
      rw [if_pos (by simp [hf0])]
    rw [hr]
    refine ⟨by simp [hf0], fun hc => ?_⟩
    rw [hc] at hf0
    cases hf0

/-- Witness for C8: a clean run exits 0, a run with one failing file
exits 1, `--inplace` plus `--out` exits 2, and a missing folder exits 2. -/
theorem C8_exit_codes_witness :
    (runA argsRealW [fileSqW]).exitCode = 0 ∧
    (runA argsRealW [fileSqW, fileFailW]).exitCode = 1 ∧
    (runA argsBadW [fileSqW]).exitCode = 2 ∧
    (runA argsNoFolderW []).exitCode = 2 := by
  refine ⟨?_, ?_, ?_, ?_⟩
  · exact ((C8_exit_codes argsRealW [fileSqW]).2 (by decide) (by decide)).1.mpr
      (by decide)
  · exact ((C8_exit_codes argsRealW [fileSqW, fileFailW]).2 (by decide)
      (by decide)).2.1.mpr ⟨fileFailW, by decide, by decide⟩
  · exact (C8_exit_codes argsBadW [fileSqW]).1.mpr (Or.inr (by decide))
  · exact (C8_exit_codes argsNoFolderW []).1.mpr (Or.inl (by decide))

/-! ### Pipeline B: the resolution step (`stepB`) -/

instance descStable_isTotal {α : Type} (sc : α → Nat) :
    IsTotal (Nat × α) (descStable sc) := by
  constructor
  intro a b
  unfold descStable
  omega

instance descStable_isTrans {α : Type} (sc : α → Nat) :
    IsTrans (Nat × α) (descStable sc) := by
  constructor
  intro a b c
  unfold descStable
  omega

/-- The action decided by `stepB`, as the explicit decision cascade of
the source. -/
theorem stepB_action_eq (cfg : ConfigB) (index : List (ImgFile × String))
    (fs : FS) (name : String) :
    (stepB cfg index fs name).row.action =
      (if (bestB cfg index name).2.2 < cfg.minScore then Action.NO_MATCH
       else if (fs (targetPathB cfg name)).isSome = true ∧
           cfg.resolve (targetPathB cfg name) =
             cfg.resolve (bestB cfg index name).1.path then
         Action.ALREADY_CORRECT
       else if (fs (targetPathB cfg name)).isSome = true then Action.SKIPPED_EXISTS
       else if cfg.dryRun = true then Action.DRY_RUN_COPY
       else Action.COPIED) := by
  simp only [stepB]
  by_cases h1 : (bestB cfg index name).2.2 < cfg.minScore
  · simp [h1]
  · by_cases h3 : (fs (targetPathB cfg name)).isSome = true
    · by_cases hres : cfg.resolve (targetPathB cfg name) =
          cfg.resolve (bestB cfg index name).1.path
      · simp [h1, h3, hres]
      · simp [h1, h3, hres]
    · by_cases h4 : cfg.dryRun = true
      · simp [h1, h3, h4]
      · simp [h1, h3, h4]

/-- The Source File column produced by `stepB`. -/
theorem stepB_sourceFile_eq (cfg : ConfigB) (index : List (ImgFile × String))
    (fs : FS) (name : String) :
    (stepB cfg index fs name).row.sourceFile =
      (if cfg.minScore ≤ (bestB cfg index name).2.2
       then (bestB cfg index name).1.name else "") := by
  simp only [stepB]
  split_ifs <;> rfl

/-- The Target File column produced by `stepB`. -/
theorem stepB_targetFile_eq (cfg : ConfigB) (index : List (ImgFile × String))
    (fs : FS) (name : String) :
    (stepB cfg index fs name).row.targetFile = safe_filename name ++ ".png" := by
  simp only [stepB]
  split_ifs <;> rfl

/-- The filesystem after a `COPIED` step: the target receives the bytes
of the best candidate, nothing else changes. -/
theorem stepB_fs_copied (cfg : ConfigB) (index : List (ImgFile × String))
    (fs : FS) (name : String)
    (h : (stepB cfg index fs name).row.action = Action.COPIED) :
    (stepB cfg index fs name).fs = fun p =>
      if p = targetPathB cfg name then fs (bestB cfg index name).1.path else fs p := by
  rw [stepB_action_eq] at h
  simp only [stepB]
  by_cases h1 : (bestB cfg index name).2.2 < cfg.minScore
  · rw [if_pos h1] at h
    simp at h
  · rw [if_neg h1] at h
    by_cases h3 : (fs (targetPathB cfg name)).isSome = true
    · by_cases hres : cfg.resolve (targetPathB cfg name) =
          cfg.resolve (bestB cfg index name).1.path
      · rw [if_pos ⟨h3, hres⟩] at h
        simp at h
      · rw [if_neg (fun hc => hres hc.2), if_pos h3] at h
        simp at h
    · rw [if_neg (fun hc => h3 hc.1), if_neg h3] at h
      by_cases h4 : cfg.dryRun = true
      · rw [if_pos h4] at h
        simp at h
      · simp [h1, h3, h4]

/-- A step never touches a path that already exists. -/
theorem stepB_fs_pres (cfg : ConfigB) (index : List (ImgFile × String))
    (fs : FS) (name : String) (p : String) (hp : (fs p).isSome = true) :
    (stepB cfg index fs name).fs p = fs p := by
  simp only [stepB]
  by_cases h1 : (bestB cfg index name).2.2 < cfg.minScore
  · simp [h1]
  · by_cases h3 : (fs (targetPathB cfg name)).isSome = true
    · by_cases hres : cfg.resolve (targetPathB cfg name) =
          cfg.resolve (bestB cfg index name).1.path
      · simp [h1, h3, hres]
      · simp [h1, h3, hres]
    · by_cases h4 : cfg.dryRun = true
      · simp [h1, h3, h4]
      · have hpt : ¬ p = targetPathB cfg name := by
          intro hpt
          rw [hpt] at hp
          exact h3 hp
        simp [h1, h3, h4, hpt]

/-- Filesystem preservation extends over the whole matching loop. -/
theorem foldB_fs_pres (cfg : ConfigB) (index : List (ImgFile × String))
    (names : List String) :
    ∀ (st : BState) (p : String), (st.fs p).isSome = true →
      (foldB cfg index st names).fs p = st.fs p := by
  induction names with
  | nil => intro st p _; rfl
  | cons n ns ih =>
    intro st p hp
    show (foldB cfg index (applyB cfg index st n) ns).fs p = st.fs p
    have h1 : (applyB cfg index st n).fs p = st.fs p :=
      stepB_fs_pres cfg index st.fs n p hp
    rw [ih (applyB cfg index st n) p (by rw [h1]; exact hp), h1]

/-- C1: for every target name, the candidate list is sorted stably by
descending composite score (the index-tagged list is sorted under
`descStable`, which orders by higher score and breaks ties by the
original enumeration index, and is a permutation of the enumeration),
the decided-on candidate is the head of that sorted list, and the
decision is exactly the cascade: `NO_MATCH` below the threshold,
otherwise `ALREADY_CORRECT` when the target path exists and resolves to
the best candidate, otherwise `SKIPPED_EXISTS` when the target path
exists, otherwise `COPIED` (`DRY_RUN_COPY` in preview mode). -/
theorem C1_resolution (cfg : ConfigB) (index : List (ImgFile × String))
    (fs : FS) (name : String) :
    (List.insertionSort (descStable (fun c : ImgFile × String × Nat => c.2.2))
        (candsB cfg index name).enum).Sorted
      (descStable (fun c : ImgFile × String × Nat => c.2.2)) ∧
    (List.insertionSort (descStable (fun c : ImgFile × String × Nat => c.2.2))
        (candsB cfg index name).enum).Perm (candsB cfg index name).enum ∧
    sortedB cfg index name =
      (List.insertionSort (descStable (fun c : ImgFile × String × Nat => c.2.2))
        (candsB cfg index name).enum).map Prod.snd ∧
    bestB cfg index name = (sortedB cfg index name).headD dummyCand ∧
    (stepB cfg index fs name).row.action =
      (if (bestB cfg index name).2.2 < cfg.minScore then Action.NO_MATCH
       else if (fs (targetPathB cfg name)).isSome = true ∧
           cfg.resolve (targetPathB cfg name) =
             cfg.resolve (bestB cfg index name).1.path then
         Action.ALREADY_CORRECT
       else if (fs (targetPathB cfg name)).isSome = true then Action.SKIPPED_EXISTS
       else if cfg.dryRun = true then Action.DRY_RUN_COPY
       else Action.COPIED) :=
  ⟨List.sorted_insertionSort _ _, List.perm_insertionSort _ _, rfl, rfl,
   stepB_action_eq cfg index fs name⟩

/-- C6: over a whole matcher run, every path that existed at the start
holds its original contents at the end (existing files are never
overwritten); moreover a step decides `COPIED` only when the derived
target path does not exist. -/
theorem C6_never_overwrite (cfg : ConfigB) (images : List ImgFile)
    (names : List String) (fs0 : FS) :
    (∀ p, (fs0 p).isSome = true → (runB cfg images names fs0).fs p = fs0 p) ∧
    (∀ (index : List (ImgFile × String)) (fs : FS) (name : String),
      (stepB cfg index fs name).row.action = Action.COPIED →
      fs (targetPathB cfg name) = none) := by
  constructor
  · intro p hp
    by_cases he : images.isEmpty = true
    · simp only [runB, if_pos he]
    · simp only [runB, if_neg he]
      exact foldB_fs_pres cfg (imageIndex images) names ⟨[], fs0, [], [], 0, 0, 0, 0⟩ p hp
  · intro index fs name h
    rw [stepB_action_eq] at h
    by_cases h1 : (bestB cfg index name).2.2 < cfg.minScore
    · rw [if_pos h1] at h
      simp at h
    · rw [if_neg h1] at h
      by_cases h3 : (fs (targetPathB cfg name)).isSome = true
      · by_cases hres : cfg.resolve (targetPathB cfg name) =
            cfg.resolve (bestB cfg index name).1.path
        · rw [if_pos ⟨h3, hres⟩] at h
          simp at h
        · rw [if_neg (fun hc => hres hc.2), if_pos h3] at h
          simp at h
      · exact Option.not_isSome_iff_eq_none.mp h3

/-- Witness for C6: after a real run that copies the JPEG candidate, the
pre-existing source file still holds its original bytes. -/
theorem C6_never_overwrite_witness :
    (runB cfgW [imgJpgW] ["Knight 01"] fsJpgW).fs "ModelArtOld/knight_01.jpg" =
      some [1, 2, 3] := by
  have h := (C6_never_overwrite cfgW [imgJpgW] ["Knight 01"] fsJpgW).1
    "ModelArtOld/knight_01.jpg" (by decide)
  rw [h]
  decide

/-- C9: the Source File column of a report row is empty exactly when the
action is `NO_MATCH`, and otherwise holds the best candidate's filename
(provided that filename is nonempty, which holds for any real directory
entry). -/
theorem C9_source_file (cfg : ConfigB) (index : List (ImgFile × String))
    (fs : FS) (name : String)
    (hn : (bestB cfg index name).1.name ≠ "") :
    ((stepB cfg index fs name).row.sourceFile = "" ↔
      (stepB cfg index fs name).row.action = Action.NO_MATCH) ∧
    ((stepB cfg index fs name).row.action ≠ Action.NO_MATCH →
      (stepB cfg index fs name).row.sourceFile = (bestB cfg index name).1.name) := by
  rw [stepB_action_eq, stepB_sourceFile_eq]
  by_cases h1 : (bestB cfg index name).2.2 < cfg.minScore
  · have hns : ¬ cfg.minScore ≤ (bestB cfg index name).2.2 := by omega
    rw [if_pos h1, if_neg hns]
    constructor
    · simp
    · intro hc
      exact absurd rfl hc
  · have hs : cfg.minScore ≤ (bestB cfg index name).2.2 := by omega
    rw [if_neg h1, if_pos hs]
    constructor
    · constructor
      · intro he
        exact absurd he hn
      · intro hc
        exfalso
        split_ifs at hc
    · intro _
      rfl

/-- Witness for C9: a matched candidate appears, verbatim, in the Source
File column of a `COPIED` row. -/
theorem C9_source_file_witness :
    (stepB cfgW (imageIndex [imgJpgW]) fsJpgW "Knight 01").row.sourceFile =
      "knight_01.jpg" := by
  have h := (C9_source_file cfgW (imageIndex [imgJpgW]) fsJpgW "Knight 01"
    (by decide)).2 (by decide)
  rw [h]
  decide

/-- C10: a `COPIED` decision writes under the sanitised stem with the
`.png` suffix appended regardless of the source file's extension, the
bytes written are exactly the source file's bytes (a verbatim copy, no
format conversion), and no other path changes. -/
theorem C10_png_verbatim (cfg : ConfigB) (index : List (ImgFile × String))
    (fs : FS) (name : String)
    (h : (stepB cfg index fs name).row.action = Action.COPIED) :
    targetPathB cfg name = (cfg.outputDir ++ "/" ++ safe_filename name) ++ ".png" ∧
    (stepB cfg index fs name).row.targetFile = safe_filename name ++ ".png" ∧
    (stepB cfg index fs name).fs (targetPathB cfg name) =
      fs (bestB cfg index name).1.path ∧
    (∀ p, p ≠ targetPathB cfg name → (stepB cfg index fs name).fs p = fs p) := by
  have hfs := stepB_fs_copied cfg index fs name h
  refine ⟨rfl, stepB_targetFile_eq cfg index fs name, ?_, ?_⟩
  · rw [hfs]
    simp
  · intro p hp
    rw [hfs]
    simp [hp]

/-- Witness for C10: the JPEG best candidate is copied byte-for-byte to
a `.png`-named target. -/
theorem C10_png_verbatim_witness :
    (stepB cfgW (imageIndex [imgJpgW]) fsJpgW "Knight 01").fs
      (targetPathB cfgW "Knight 01") = some [1, 2, 3] ∧
    targetPathB cfgW "Knight 01" = "ModelArt/Knight 01.png" := by
  have h := C10_png_verbatim cfgW (imageIndex [imgJpgW]) fsJpgW "Knight 01" (by decide)
  constructor
  · rw [h.2.2.1]
    decide
  · decide

/-! ### Characterisation of `normalise` output (towards C2) -/

/-- Reading back the code point of a valid `Char.ofNat`. -/
theorem toNat_ofNat_valid {n : Nat} (h : n < 55296) : (Char.ofNat n).toNat = n := by
  have hval : n.isValidChar := Or.inl h
  simp [Char.ofNat, Char.toNat, hval, Char.ofNatAux, UInt32.ofNatCore, UInt32.toNat,
    BitVec.toNat_ofNatLt]

/-- ASCII lowercasing is idempotent. -/
theorem toLower_toLower (c : Char) : c.toLower.toLower = c.toLower := by
  by_cases h1 : c.toNat ≥ 65 ∧ c.toNat ≤ 90
  · have hv : (Char.ofNat (c.toNat + 32)).toNat = c.toNat + 32 :=
      toNat_ofNat_valid (by omega)
    have e1 : c.toLower = Char.ofNat (c.toNat + 32) := by
      simp only [Char.toLower]
      rw [if_pos h1]
    rw [e1]
    simp only [Char.toLower]
    rw [if_neg (by rw [hv]; omega)]
  · have e1 : c.toLower = c := by
      simp only [Char.toLower]
      rw [if_neg h1]
    rw [e1, e1]

/-- A list of lowercase-fixed characters maps to itself. -/
theorem map_toLower_eq_self {l : List Char} (h : ∀ c ∈ l, c.toLower = c) :
    l.map Char.toLower = l := by
  induction l with
  | nil => rfl
  | cons c cs ih =>
    simp only [List.map_cons]
    rw [h c (by simp), ih (fun d hd => h d (by simp [hd]))]

/-- Characters of `collapseRunsAux` output: either a non-run character
of the input or the replacement. -/
theorem mem_collapseRunsAux {p : Char → Bool} {rep : Char} {b : Bool}
    {l : List Char} {c : Char} (h : c ∈ collapseRunsAux p rep b l) :
    (c ∈ l ∧ p c = false) ∨ c = rep := by
  induction l generalizing b with
  | nil => cases h
  | cons d cs ih =>
    by_cases hd : p d = true
    · cases b with
      | true =>
        simp only [collapseRunsAux, hd, if_true] at h
        rcases ih h with ⟨h1, h2⟩ | h1
        · exact Or.inl ⟨by simp [h1], h2⟩
        · exact Or.inr h1
      | false =>
        simp only [collapseRunsAux, hd, if_true, Bool.false_eq_true, if_false,
          List.mem_cons] at h
        rcases h with h | h
        · exact Or.inr h
        · rcases ih h with ⟨h1, h2⟩ | h1
          · exact Or.inl ⟨by simp [h1], h2⟩
          · exact Or.inr h1
    · have hd' : p d = false := by revert hd; cases p d <;> simp
      simp only [collapseRunsAux, hd', Bool.false_eq_true, if_false,
        List.mem_cons] at h
      rcases h with h | h
      · exact Or.inl ⟨by simp [h], by rw [h]; exact hd'⟩
      · rcases ih h with ⟨h1, h2⟩ | h1
        · exact Or.inl ⟨by simp [h1], h2⟩
        · exact Or.inr h1

/-- Characters of `collapseRuns` output. -/
theorem mem_collapseRuns {p : Char → Bool} {rep : Char} {l : List Char}
    {c : Char} (h : c ∈ collapseRuns p rep l) :
    (c ∈ l ∧ p c = false) ∨ c = rep := by
  unfold collapseRuns at h
  exact mem_collapseRunsAux h

/-- `collapseRuns` is the identity on lists without run characters. -/
theorem collapseRuns_eq_self {p : Char → Bool} {rep : Char} {l : List Char}
    (h : ∀ c ∈ l, p c = false) : collapseRuns p rep l = l := by
  unfold collapseRuns
  induction l with
  | nil => rfl
  | cons d cs ih =>
    have hd := h d (by simp)
    simp only [collapseRunsAux, hd, Bool.false_eq_true, if_false]
    rw [ih (fun c hc => h c (by simp [hc]))]

/-- Collapsing whitespace runs yields isolated single spaces. -/
theorem spIso_collapse (l : List Char) :
    spIso (collapseRunsAux isSpaceC ' ' false l) = true ∧
    spIso (collapseRunsAux isSpaceC ' ' true l) = true ∧
    headIsSpace (collapseRunsAux isSpaceC ' ' true l) = false := by
  induction l with
  | nil => exact ⟨rfl, rfl, rfl⟩
  | cons c cs ih =>
    by_cases hc : isSpaceC c = true
    · refine ⟨?_, ?_, ?_⟩
      · simp only [collapseRunsAux, hc, if_true, Bool.false_eq_true, if_false]
        simp [spIso, ih.2.1, ih.2.2, isSpaceC]
      · simp only [collapseRunsAux, hc, if_true]
        exact ih.2.1
      · simp only [collapseRunsAux, hc, if_true]
        exact ih.2.2
    · have hc' : isSpaceC c = false := by revert hc; cases isSpaceC c <;> simp
      refine ⟨?_, ?_, ?_⟩
      · simp only [collapseRunsAux, hc', Bool.false_eq_true, if_false]
        simp [spIso, hc', ih.1]
      · simp only [collapseRunsAux, hc', Bool.false_eq_true, if_false]
        simp [spIso, hc', ih.1]
      · simp only [collapseRunsAux, hc', Bool.false_eq_true, if_false]
        simp [headIsSpace, hc']

/-- Collapsing whitespace runs is the identity on isolated-space lists. -/
theorem spIso_fix {l : List Char} (h : spIso l = true) :
    collapseRunsAux isSpaceC ' ' false l = l ∧
    (headIsSpace l = false → collapseRunsAux isSpaceC ' ' true l = l) := by
  induction l with
  | nil => exact ⟨rfl, fun _ => rfl⟩
  | cons c cs ih =>
    simp only [spIso, Bool.and_eq_true] at h
    obtain ⟨hcond, hcs⟩ := h
    obtain ⟨ih1, ih2⟩ := ih hcs
    by_cases hc : isSpaceC c = true
    · have hceq : c = ' ' ∧ headIsSpace cs = false := by
        simp [hc] at hcond
        exact hcond
      constructor
      · simp only [collapseRunsAux, hc, if_true, Bool.false_eq_true, if_false]
        rw [ih2 hceq.2, hceq.1]
      · intro hhead
        rw [show headIsSpace (c :: cs) = isSpaceC c from rfl, hc] at hhead
        cases hhead
    · have hc' : isSpaceC c = false := by revert hc; cases isSpaceC c <;> simp
      constructor
      · simp only [collapseRunsAux, hc', Bool.false_eq_true, if_false]
        rw [ih1]
      · intro _
        simp only [collapseRunsAux, hc', Bool.false_eq_true, if_false]
        rw [ih1]

/-- `spIso` restricts to prefixes. -/
theorem spIso_append_left {a b : List Char} (h : spIso (a ++ b) = true) :
    spIso a = true := by
  induction a with
  | nil => rfl
  | cons c a' ih =>
    simp only [List.cons_append, spIso, Bool.and_eq_true] at h ⊢
    obtain ⟨hcond, hrest⟩ := h
    refine ⟨?_, ih hrest⟩
    cases a' with
    | nil =>
      simp only [headIsSpace, Bool.not_false, Bool.and_true]
      cases hsc : isSpaceC c
      · simp [hsc]
      · rw [hsc] at hcond
        simp only [hsc, Bool.not_true, Bool.false_or, Bool.and_eq_true] at hcond ⊢
        exact hcond.1
    | cons d a'' =>
      simpa only [List.cons_append, headIsSpace] using hcond

/-- After dropping leading whitespace, the head is not whitespace. -/
theorem headIsSpace_dropWhile (l : List Char) :
    headIsSpace (l.dropWhile isSpaceC) = false := by
  induction l with
  | nil => rfl
  | cons c cs ih =>
    by_cases hc : isSpaceC c = true
    · rw [List.dropWhile_cons, if_pos hc]
      exact ih
    · have hc' : isSpaceC c = false := by revert hc; cases isSpaceC c <;> simp
      rw [List.dropWhile_cons, if_neg (by simp [hc'])]
      simp [headIsSpace, hc']

/-- `spIso` survives dropping leading whitespace. -/
theorem spIso_dropWhile {l : List Char} (h : spIso l = true) :
    spIso (l.dropWhile isSpaceC) = true := by
  induction l with
  | nil => rfl
  | cons c cs ih =>
    simp only [spIso, Bool.and_eq_true] at h
    by_cases hc : isSpaceC c = true
    · rw [List.dropWhile_cons, if_pos hc]
      exact ih h.2
    · rw [List.dropWhile_cons, if_neg hc]
      simp only [spIso, Bool.and_eq_true]
      exact h

/-- `dropTrail` splits its input as prefix plus dropped tail. -/
theorem dropTrail_append (p : Char → Bool) (m : List Char) :
    dropTrail p m ++ (m.reverse.takeWhile p).reverse = m := by
  unfold dropTrail
  rw [← List.reverse_append, List.takeWhile_append_dropWhile, List.reverse_reverse]

/-- `dropTrail` keeps the head unchanged (when anything remains). -/
theorem headIsSpace_dropTrail (p : Char → Bool) (m : List Char)
    (h : headIsSpace m = false) : headIsSpace (dropTrail p m) = false := by
  have hd := dropTrail_append p m
  cases he : dropTrail p m with
  | nil => rfl
  | cons c rest =>
    rw [he] at hd
    rw [← hd] at h
    simpa [headIsSpace] using h

/-- The reverse of `dropTrail` is a `dropWhile` on the reverse. -/
theorem reverse_dropTrail (p : Char → Bool) (m : List Char) :
    (dropTrail p m).reverse = m.reverse.dropWhile p := by
  unfold dropTrail
  rw [List.reverse_reverse]

/-- `pyStrip` output neither starts nor ends with whitespace. -/
theorem pyStrip_edges (l : List Char) :
    headIsSpace (pyStrip l) = false ∧ headIsSpace (pyStrip l).reverse = false := by
  constructor
  · exact headIsSpace_dropTrail _ _ (headIsSpace_dropWhile l)
  · rw [pyStrip, reverse_dropTrail]
    exact headIsSpace_dropWhile _

/-- `spIso` survives stripping. -/
theorem spIso_pyStrip {l : List Char} (h : spIso l = true) :
    spIso (pyStrip l) = true := by
  have h1 : spIso (l.dropWhile isSpaceC) = true := spIso_dropWhile h
  have hd := dropTrail_append isSpaceC (l.dropWhile isSpaceC)
  exact spIso_append_left (a := pyStrip l) (by rw [pyStrip, hd]; exact h1)

/-- `pyStrip` is the identity when both edges are free of whitespace. -/
theorem pyStrip_eq_self {l : List Char} (h1 : headIsSpace l = false)
    (h2 : headIsSpace l.reverse = false) : pyStrip l = l := by
  have e1 : l.dropWhile isSpaceC = l := by
    cases l with
    | nil => rfl
    | cons c cs =>
      rw [List.dropWhile_cons, if_neg (by simpa [headIsSpace] using h1)]
  have e2 : l.reverse.dropWhile isSpaceC = l.reverse := by
    cases hr : l.reverse with
    | nil => rfl
    | cons c cs =>
      rw [hr] at h2
      rw [List.dropWhile_cons, if_neg (by simpa [headIsSpace] using h2)]
  rw [pyStrip, e1, dropTrail, e2, List.reverse_reverse]

/-- Characters survive `dropTrail` membership-wise. -/
theorem mem_dropTrail {p : Char → Bool} {c : Char} {m : List Char}
    (h : c ∈ dropTrail p m) : c ∈ m := by
  unfold dropTrail at h
  rw [List.mem_reverse] at h
  exact List.mem_reverse.mp (List.Sublist.mem h (List.dropWhile_suffix p).sublist)

/-- Characters survive `pyStrip` membership-wise. -/
theorem mem_pyStrip {c : Char} {l : List Char} (h : c ∈ pyStrip l) : c ∈ l :=
  List.Sublist.mem (mem_dropTrail h) (List.dropWhile_suffix isSpaceC).sublist

/-- Characters survive `extStripRev` membership-wise. -/
theorem mem_extStripRev {c : Char} {r : List Char} (h : c ∈ extStripRev r) :
    c ∈ r := by
  simp only [extStripRev] at h
  split at h
  · rename_i rest heq
    split_ifs at h
    · have h1 : c ∈ r.dropWhile isLowerAlpha := by
        rw [heq]
        exact List.mem_cons_of_mem _ h
      exact List.Sublist.mem h1 (List.dropWhile_suffix isLowerAlpha).sublist
    · exact h
  · exact h

/-- Characters survive `extStrip` membership-wise. -/
theorem mem_extStrip {c : Char} {l : List Char} (h : c ∈ extStrip l) : c ∈ l := by
  unfold extStrip at h
  rw [List.mem_reverse] at h
  exact List.mem_reverse.mp (mem_extStripRev h)

/-- Characters survive `digitStripRev` membership-wise. -/
theorem mem_digitStripRev {c : Char} {r : List Char} (h : c ∈ digitStripRev r) :
    c ∈ r := by
  unfold digitStripRev at h
  split at h
  · exact h
  · have h1 := List.Sublist.mem h (List.dropWhile_suffix isSepC).sublist
    exact List.Sublist.mem h1 (List.dropWhile_suffix isDigitC).sublist

/-- Characters survive `digitStrip` membership-wise. -/
theorem mem_digitStrip {c : Char} {l : List Char} (h : c ∈ digitStrip l) :
    c ∈ l := by
  unfold digitStrip at h
  rw [List.mem_reverse] at h
  exact List.mem_reverse.mp (mem_digitStripRev h)

/-- Characters survive an end-anchored substitution membership-wise,
provided they survive the substitution body. -/
theorem mem_subEnd {f : List Char → List Char}
    (hf : ∀ (m : List Char) (c : Char), c ∈ f m → c ∈ m)
    {c : Char} {l : List Char} (h : c ∈ subEnd f l) : c ∈ l := by
  unfold subEnd at h
  split_ifs at h with hnl
  · rw [List.mem_append] at h
    rcases h with h | h
    · exact List.Sublist.mem (hf _ _ h) (List.dropLast_sublist l)
    · simp at h
      subst h
      have h1 : l.reverse.head? = some '\n' := by rw [List.head?_reverse, hnl]
      exact List.mem_reverse.mp (List.mem_of_mem_head? h1)
  · exact hf _ _ h

/-- Every character of `normalise` output is a lowered input character,
a space, or a newline. -/
theorem mem_normaliseL {c : Char} {l : List Char} (h : c ∈ normaliseL l) :
    c ∈ l.map Char.toLower ∨ c = ' ' ∨ c = '\n' := by
  unfold normaliseL at h
  have h1 := mem_pyStrip h
  rcases mem_collapseRuns h1 with ⟨h2, _⟩ | h2
  · rcases mem_collapseRuns h2 with ⟨h3, _⟩ | h3
    · have h4 := mem_subEnd (fun m d hh => mem_digitStrip hh) h3
      have h5 := mem_subEnd (fun m d hh => mem_extStrip hh) h4
      exact Or.inl h5
    · exact Or.inr (Or.inl h3)
  · exact Or.inr (Or.inl h2)

/-- Every character of `normalise` output is fixed by lowercasing. -/
theorem normaliseL_lowered {l : List Char} :
    ∀ c ∈ normaliseL l, c.toLower = c := by
  intro c hc
  rcases mem_normaliseL hc with h | h | h
  · rw [List.mem_map] at h
    obtain ⟨d, _, hd⟩ := h
    rw [← hd]
    exact toLower_toLower d
  · rw [h]
    decide
  · rw [h]
    decide

/-- `normalise` output contains no underscores or hyphens. -/
theorem normaliseL_noUnd {l : List Char} :
    ∀ c ∈ normaliseL l, isUndC c = false := by
  intro c hc
  unfold normaliseL at hc
  have h1 := mem_pyStrip hc
  rcases mem_collapseRuns h1 with ⟨h2, _⟩ | h2
  · rcases mem_collapseRuns h2 with ⟨_, h3⟩ | h3
    · exact h3
    · rw [h3]
      rfl
  · rw [h2]
    rfl

/-- `normalise` output has isolated single spaces only. -/
theorem normaliseL_spIso (l : List Char) : spIso (normaliseL l) = true :=
  spIso_pyStrip (spIso_collapse _).1

/-- `normalise` output has no whitespace at either edge. -/
theorem normaliseL_edges (l : List Char) :
    headIsSpace (normaliseL l) = false ∧
    headIsSpace (normaliseL l).reverse = false :=
  pyStrip_edges _

/-- `normalise` output never ends in a newline. -/
theorem normaliseL_getLast_ne_nl (l : List Char) :
    ¬ (normaliseL l).getLast? = some '\n' := by
  intro h
  have h2 := (normaliseL_edges l).2
  have h1 : (normaliseL l).reverse.head? = some '\n' := by
    rw [List.head?_reverse, h]
  cases hr : (normaliseL l).reverse with
  | nil => rw [hr] at h1; cases h1
  | cons c cs =>
    rw [hr] at h1 h2
    simp only [List.head?_cons, Option.some.injEq] at h1
    subst h1
    simp [headIsSpace, isSpaceC] at h2

/-! ### C2: the normalisation example holds but idempotence fails -/

set_option maxHeartbeats 2000000 in
/-- Counterexample to C2 as stated: `normalise` is not idempotent.  For
the input `"a1 2"` the digit-strip pass removes only the trailing `" 2"`
(`re.sub` does not rescan), leaving `"a1"`, and a second application
strips the now-trailing `"1"`, giving `"a"`. -/
theorem C2_counterexample :
    ¬ (normalise (normalise "a1 2") = normalise "a1 2") := by decide

set_option maxHeartbeats 2000000 in
/-- C2 (amended): `normalise "Knight_02.png" = "knight"`, and `normalise`
is idempotent on every input whose normalised form is left unchanged by
the trailing-extension strip and the trailing-digit strip (the two
end-anchored passes are the only sources of non-idempotence). -/
theorem C2_normalise :
    normalise "Knight_02.png" = "knight" ∧
    ∀ s : String, extStripS (normalise s) = normalise s →
      digitStripS (normalise s) = normalise s →
      normalise (normalise s) = normalise s := by
  constructor
  · decide
  · intro s hext hdig
    have hext' : subEnd extStrip (normaliseL s.data) = normaliseL s.data :=
      congrArg String.data hext
    have hdig' : subEnd digitStrip (normaliseL s.data) = normaliseL s.data :=
      congrArg String.data hdig
    show String.mk (normaliseL (normaliseL s.data)) = String.mk (normaliseL s.data)
    congr 1
    have e0 : (normaliseL s.data).map Char.toLower = normaliseL s.data :=
      map_toLower_eq_self normaliseL_lowered
    have e3 : collapseRuns isUndC ' ' (normaliseL s.data) = normaliseL s.data :=
      collapseRuns_eq_self normaliseL_noUnd
    have e4 : collapseRuns isSpaceC ' ' (normaliseL s.data) = normaliseL s.data :=
      (spIso_fix (normaliseL_spIso s.data)).1
    have e5 : pyStrip (normaliseL s.data) = normaliseL s.data :=
      pyStrip_eq_self (normaliseL_edges s.data).1 (normaliseL_edges s.data).2
    show pyStrip (collapseRuns isSpaceC ' ' (collapseRuns isUndC ' '
      (subEnd digitStrip (subEnd extStrip ((normaliseL s.data).map Char.toLower))))) =
      normaliseL s.data
    rw [e0, hext', hdig', e3, e4, e5]

set_option maxHeartbeats 2000000 in
/-- Witness for the amended C2 at the spec's own example. -/
theorem C2_normalise_witness :
    normalise (normalise "Knight_02.png") = normalise "Knight_02.png" :=
  C2_normalise.2 "Knight_02.png" (by decide) (by decide)

/-! ### C5: dry-run versus real runs -/

/-- A dry-run step of Trim.py performs no writes. -/
theorem stepA_dry_writes (a : ArgsA) (ha : a.dryRun = true) (st : AState)
    (f : FileA) : (stepA a st f).writes = st.writes := by
  unfold stepA
  split_ifs with h1
  · rfl
  · rfl

/-- A dry run of the Trim.py loop performs no writes. -/
theorem foldA_dry_writes (a : ArgsA) (ha : a.dryRun = true) (files : List FileA) :
    ∀ st : AState, (files.foldl (stepA a) st).writes = st.writes := by
  induction files with
  | nil => intro st; rfl
  | cons f fs ih =>
    intro st
    rw [List.foldl_cons, ih, stepA_dry_writes a ha]

/-- Each step appends exactly the decision record of its file. -/
theorem stepA_decisions_append (a : ArgsA) (st : AState) (f : FileA) :
    (stepA a st f).decisions = st.decisions ++ [decOfA a f] := by
  unfold stepA decOfA
  split_ifs with h1 h2 <;> simp [h1]

/-- The loop appends exactly the decision records of its files. -/
theorem foldA_decisions (a : ArgsA) (files : List FileA) :
    ∀ st : AState,
      (files.foldl (stepA a) st).decisions = st.decisions ++ files.map (decOfA a) := by
  induction files with
  | nil => intro st; simp
  | cons f fs ih =>
    intro st
    rw [List.foldl_cons, ih, stepA_decisions_append]
    simp

/-- A dry matcher step: same row up to the `DRY_RUN_COPY` label, no
filesystem change, no copy event; and a real step only ever touches the
derived target path.  `fsD`/`fsR` are the filesystems seen by the dry and
the real run, which agree at the target path. -/
theorem stepB_dry_real (cfg : ConfigB) (index : List (ImgFile × String))
    (name : String) (fsD fsR : FS)
    (hD : fsD (targetPathB cfg name) = fsR (targetPathB cfg name)) :
    relabelRow (stepB {cfg with dryRun := true} index fsD name).row =
      (stepB {cfg with dryRun := false} index fsR name).row ∧
    (stepB {cfg with dryRun := true} index fsD name).fs = fsD ∧
    (stepB {cfg with dryRun := true} index fsD name).copies = [] ∧
    (∀ p, p ≠ targetPathB cfg name →
      (stepB {cfg with dryRun := false} index fsR name).fs p = fsR p) := by
  have e1 : bestB {cfg with dryRun := true} index name = bestB cfg index name := rfl
  have e2 : bestB {cfg with dryRun := false} index name = bestB cfg index name := rfl
  have e3 : sortedB {cfg with dryRun := true} index name = sortedB cfg index name := rfl
  have e4 : sortedB {cfg with dryRun := false} index name = sortedB cfg index name := rfl
  have e5 : targetPathB {cfg with dryRun := true} name = targetPathB cfg name := rfl
  have e6 : targetPathB {cfg with dryRun := false} name = targetPathB cfg name := rfl
  simp only [stepB, e1, e2, e3, e4, e5, e6]
  rw [hD]
  by_cases h1 : (bestB cfg index name).2.2 < cfg.minScore
  · simp [h1, relabelRow, relabelAction]
  · by_cases h3 : (fsR (targetPathB cfg name)).isSome = true
    · by_cases hres : cfg.resolve (targetPathB cfg name) =
          cfg.resolve (bestB cfg index name).1.path
      · simp [h1, h3, hres, relabelRow, relabelAction]
      · simp [h1, h3, hres, relabelRow, relabelAction]
    · simp [h1, h3, relabelRow, relabelAction]
      intro p hp hc
      exact absurd hc hp

/-- A dry matcher loop accumulates no copy events. -/
theorem foldB_dry_copies (cfg : ConfigB) (index : List (ImgFile × String)) :
    ∀ (names : List String) (st : BState), st.copies = [] →
      (foldB {cfg with dryRun := true} index st names).copies = [] := by
  intro names
  induction names with
  | nil => intro st h; exact h
  | cons n ns ih =>
    intro st h
    show (foldB _ index (applyB _ index st n) ns).copies = []
    apply ih
    show st.copies ++ (stepB {cfg with dryRun := true} index st.fs n).copies = []
    rw [h, (stepB_dry_real cfg index n st.fs st.fs rfl).2.2.1]
    rfl

/-- Pairing a dry and a real matcher loop: with pairwise-distinct target
paths, the dry run reproduces the real run's rows up to relabelling
`DRY_RUN_COPY` as `COPIED`. -/
theorem foldB_dry_real (cfg : ConfigB) (index : List (ImgFile × String)) :
    ∀ (names : List String) (stD stR : BState) (processed : List String)
      (fs0 : FS),
      stD.fs = fs0 →
      (∀ p, stR.fs p = fs0 p ∨ p ∈ processed) →
      (∀ n ∈ names, targetPathB cfg n ∉ processed) →
      (names.map (fun n => targetPathB cfg n)).Nodup →
      stD.rows.map relabelRow = stR.rows →
      (foldB {cfg with dryRun := true} index stD names).rows.map relabelRow =
        (foldB {cfg with dryRun := false} index stR names).rows := by
  intro names
  induction names with
  | nil => intro stD stR processed fs0 h1 h2 h3 h4 h6; exact h6
  | cons n ns ih =>
    intro stD stR processed fs0 h1 h2 h3 h4 h6
    have htn : targetPathB cfg n ∉ processed := h3 n (by simp)
    have hfsR : stR.fs (targetPathB cfg n) = fs0 (targetPathB cfg n) := by
      rcases h2 (targetPathB cfg n) with h | h
      · exact h
      · exact absurd h htn
    have hD : stD.fs (targetPathB cfg n) = stR.fs (targetPathB cfg n) := by
      rw [h1, hfsR]
    have hs := stepB_dry_real cfg index n stD.fs stR.fs hD
    have h4' : (∀ x ∈ ns, ¬ targetPathB cfg x = targetPathB cfg n) ∧
        (ns.map (fun n => targetPathB cfg n)).Nodup := by simpa using h4
    refine ih (applyB {cfg with dryRun := true} index stD n)
      (applyB {cfg with dryRun := false} index stR n)
      (targetPathB cfg n :: processed) fs0 ?_ ?_ ?_ ?_ ?_
    · show (stepB {cfg with dryRun := true} index stD.fs n).fs = fs0
      rw [hs.2.1, h1]
    · intro p
      by_cases hp : p = targetPathB cfg n
      · right
        simp [hp]
      · rcases h2 p with h | h
        · left
          show (stepB {cfg with dryRun := false} index stR.fs n).fs p = fs0 p
          rw [hs.2.2.2 p hp, h]
        · right
          exact List.mem_cons_of_mem _ h
    · intro m hm
      have hmp := h3 m (by simp [hm])
      have hne : targetPathB cfg m ≠ targetPathB cfg n := h4'.1 m hm
      simp [List.mem_cons, hne, hmp]
    · exact h4'.2
    · show (stD.rows ++ [(stepB {cfg with dryRun := true} index stD.fs n).row]).map
          relabelRow =
        stR.rows ++ [(stepB {cfg with dryRun := false} index stR.fs n).row]
      rw [List.map_append, h6]
      simp [hs.1]

/-- The decisions of a Trim.py run, by validation outcome. -/
theorem runA_decisions (a : ArgsA) (files : List FileA) :
    (runA a files).decisions =
      (if a.folderOk = false then []
       else if (a.inplace && a.out.isSome) = true then []
       else files.map (decOfA a)) := by
  by_cases h1 : a.folderOk = true
  · by_cases h2 : (a.inplace && a.out.isSome) = true
    · simp [runA, h1, h2]
    · simp [runA, h1, h2, foldA_decisions]
  · have h1' : a.folderOk = false := by revert h1; cases a.folderOk <;> simp
    simp [runA, h1']

/-- The writes of a Trim.py run, by validation outcome. -/
theorem runA_writes (a : ArgsA) (files : List FileA) :
    (runA a files).writes =
      (if a.folderOk = false then []
       else if (a.inplace && a.out.isSome) = true then []
       else (files.foldl (stepA a) ⟨[], [], [], 0, 0, 0⟩).writes) := by
  by_cases h1 : a.folderOk = true
  · by_cases h2 : (a.inplace && a.out.isSome) = true
    · simp [runA, h1, h2]
    · simp [runA, h1, h2]
  · have h1' : a.folderOk = false := by revert h1; cases a.folderOk <;> simp
    simp [runA, h1']

/-- Counterexample to C5 as stated: the log lines of a dry run are not
those of the real run (Trim.py prints per-file action lines only in dry
mode and counts skipped files as changed; the matcher labels the action
`DRY_RUN_COPY` and prints the dry banner), and a dry matcher run still
writes its CSV report. -/
theorem C5_counterexample :
    (runA argsDryW [fileSqW]).logs ≠ (runA argsRealW [fileSqW]).logs ∧
    (runB cfgDryW [imgJpgW] ["Knight 01"] fsJpgW).reportWritten = true ∧
    (runB cfgDryW [imgJpgW] ["Knight 01"] fsJpgW).logs ≠
      (runB {cfgDryW with dryRun := false} [imgJpgW] ["Knight 01"] fsJpgW).logs := by
  refine ⟨by decide, by decide, by decide⟩

/-- C5 (amended): a dry run makes the same per-item decisions as a real
run — identically for Trim.py, and up to relabelling `DRY_RUN_COPY` as
`COPIED` for the matcher provided distinct names derive distinct target
paths — and performs no image-file writes; but the matcher's dry run
still creates the output directory and writes the CSV report, and the
printed log lines differ between the two modes. -/
theorem C5_dry_run (a : ArgsA) (files : List FileA) (cfg : ConfigB)
    (images : List ImgFile) (names : List String) (fs0 : FS) :
    ((runA {a with dryRun := true} files).decisions =
      (runA {a with dryRun := false} files).decisions ∧
     (runA {a with dryRun := true} files).writes = []) ∧
    ((runB {cfg with dryRun := true} images names fs0).copies = [] ∧
     (runB {cfg with dryRun := true} images names fs0).reportWritten =
       (runB {cfg with dryRun := false} images names fs0).reportWritten ∧
     (runB {cfg with dryRun := true} images names fs0).mkdirDone = true ∧
     ((names.map (fun n => targetPathB cfg n)).Nodup →
       (runB {cfg with dryRun := true} images names fs0).rows.map relabelRow =
         (runB {cfg with dryRun := false} images names fs0).rows)) := by
  constructor
  · constructor
    · rw [runA_decisions, runA_decisions]
      have e1 : ({a with dryRun := true} : ArgsA).folderOk = a.folderOk := rfl
      have e2 : ({a with dryRun := false} : ArgsA).folderOk = a.folderOk := rfl
      have e3 : ({a with dryRun := true} : ArgsA).inplace = a.inplace := rfl
      have e4 : ({a with dryRun := false} : ArgsA).inplace = a.inplace := rfl
      have e5 : ({a with dryRun := true} : ArgsA).out = a.out := rfl
      have e6 : ({a with dryRun := false} : ArgsA).out = a.out := rfl
      rw [e1, e2, e3, e4, e5, e6]
      by_cases h1 : a.folderOk = false
      · rw [if_pos h1, if_pos h1]
      · rw [if_neg h1, if_neg h1]
        by_cases h2 : (a.inplace && a.out.isSome) = true
        · rw [if_pos h2, if_pos h2]
        · rw [if_neg h2, if_neg h2]
          rfl
    · rw [runA_writes]
      have e1 : ({a with dryRun := true} : ArgsA).folderOk = a.folderOk := rfl
      have e3 : ({a with dryRun := true} : ArgsA).inplace = a.inplace := rfl
      have e5 : ({a with dryRun := true} : ArgsA).out = a.out := rfl
      rw [e1, e3, e5]
      by_cases h1 : a.folderOk = false
      · rw [if_pos h1]
      · rw [if_neg h1]
        by_cases h2 : (a.inplace && a.out.isSome) = true
        · rw [if_pos h2]
        · rw [if_neg h2]
          rw [foldA_dry_writes _ rfl]
  · by_cases he : images.isEmpty = true
    · simp [runB, he]
    · simp only [runB, if_neg he]
      refine ⟨?_, ?_, ?_, ?_⟩
      · exact foldB_dry_copies cfg (imageIndex images) names
          ⟨[], fs0, [], [], 0, 0, 0, 0⟩ rfl
      · trivial
      · trivial
      · intro hnd
        exact foldB_dry_real cfg (imageIndex images) names
          ⟨[], fs0, [], [], 0, 0, 0, 0⟩ ⟨[], fs0, [], [], 0, 0, 0, 0⟩ [] fs0
          rfl (fun p => Or.inl rfl) (fun n _ => List.not_mem_nil _) hnd rfl

/-- Witness for the amended C5 at concrete runs of both pipelines. -/
theorem C5_dry_run_witness :
    (runA {argsRealW with dryRun := true} [fileSqW]).writes = [] ∧
    (runA {argsRealW with dryRun := true} [fileSqW]).decisions =
      (runA {argsRealW with dryRun := false} [fileSqW]).decisions ∧
    (runB {cfgW with dryRun := true} [imgJpgW] ["Knight 01"] fsJpgW).copies = [] ∧
    (runB {cfgW with dryRun := true} [imgJpgW] ["Knight 01"] fsJpgW).rows.map
        relabelRow =
      (runB {cfgW with dryRun := false} [imgJpgW] ["Knight 01"] fsJpgW).rows := by
  have h := C5_dry_run argsRealW [fileSqW] cfgW [imgJpgW] ["Knight 01"] fsJpgW
  exact ⟨h.1.2, h.1.1, h.2.1, h.2.2.2.2 (by decide)⟩

end Warmachine
